import Mathlib

/-!
# Verification of the ParrotBot quote pipeline (src/parrotbot.py)

Shallow embedding of the core components of the bot:

* the quote grammar, the compiled pattern
  `(?P<author>.*?)\s*>\s*(?P<content>.+)` used with `fullmatch`
  (`ParrotBot.re_quote`, line 52, and its uses at lines 173 and 320);
* the identity matcher `ParrotBot.is_same_user` (lines 121-151);
* the history scanner `ParrotBot.search_message_by_quote` (lines 153-189);
* the responder `ParrotBot.quote_message` (lines 239-274) and the event
  handler `ParrotBot.on_message` (lines 318-321), with side effects
  reified as an ordered trace of outbound calls.

Strings are modelled as their character lists where convenient; the
whitespace class and the `re.escape` special set are the ASCII portions of
the Python classes, which cover every character the grammar distinguishes.
-/

namespace Parrot

/-- The characters of the regex class `\s` (ASCII range), as matched by the
Python `re` module inside `re_quote` and friends. -/
def isPySpace (c : Char) : Bool :=
  c = ' ' || c = '\t' || c = '\n' || c = '\r' || c = '\x0b' || c = '\x0c'

/-- The content part `\s*(?P<content>.+)` of `re_quote`, matched against the
suffix `t` that follows the separator character: the greedy `\s*` first takes
the whole leading whitespace run of `t` (length `j` at the initial call) and
backtracks one character at a time; `.+` must then consume the entire rest,
which it can do exactly when that rest is non-empty and contains no newline
(`.` does not match a newline). The first split that succeeds, i.e. the one
with the longest whitespace run, yields the content group. -/
def tryContent (t : List Char) : Nat → Option (List Char)
  | 0 => if t ≠ [] ∧ '\n' ∉ t then some t else none
  | j + 1 =>
    if t.drop (j + 1) ≠ [] ∧ '\n' ∉ t.drop (j + 1) then some (t.drop (j + 1))
    else tryContent t j

/-- Matching `\s*>\s*(?P<content>.+)` against the whole of `r`: the greedy
`\s*` can only ever hand over to `>` at the end of the maximal whitespace
run (a shorter run would leave a whitespace character, never `>`, in front),
so the separator must be the first non-whitespace character of `r`. -/
def matchFromSep (r : List Char) : Option (List Char) :=
  match r.dropWhile isPySpace with
  | [] => none
  | h :: t => if h = '>' then tryContent t (t.takeWhile isPySpace).length else none

/-- The lazy author group `(?P<author>.*?)` of `re_quote` under `fullmatch`:
try the empty author first and grow it one character at a time (never across
a newline, which `.` cannot match), handing the remaining suffix to
`matchFromSep`. `acc` holds the author characters consumed so far, in
reverse. The first overall success fixes the groups, so the author is the
shortest prefix whose remainder matches `\s*>\s*(?P<content>.+)` to the end
of the body. -/
def reQuoteAux : List Char → List Char → Option (List Char × List Char)
  | acc, rest =>
    match matchFromSep rest with
    | some content => some (acc.reverse, content)
    | none =>
      match rest with
      | [] => none
      | ch :: rest' => if ch = '\n' then none else reQuoteAux (ch :: acc) rest'

/-- The two named groups of a successful `re_quote.fullmatch`, as read off by
`groupdict()` at line 173: the author group always participates (possibly as
the empty string), the content group is mandatory. -/
structure QuotePattern where
  author : String
  content : String
  deriving DecidableEq, Repr

/-- Model of `self.re_quote.fullmatch(body)` (lines 52, 173, 320), returning the group
dictionary on success and `None` on failure. -/
def re_quote_fullmatch (body : String) : Option QuotePattern :=
  (reQuoteAux [] body.toList).map (fun p => ⟨String.mk p.1, String.mk p.2⟩)

/-- The characters escaped by `re.escape` (the ASCII special set of
Python 3.7+). Line 142 applies this to the author hint before any of the
three checks of `is_same_user`, including the plain-string `find` on the id. -/
def isReSpecial (c : Char) : Bool :=
  c = '(' || c = ')' || c = '[' || c = ']' || c = '\x7b' || c = '\x7d' ||
  c = '?' || c = '*' || c = '+' || c = '-' || c = '|' || c = '^' ||
  c = '$' || c = '\\' || c = '.' || c = '&' || c = '~' || c = '#' ||
  c = ' ' || c = '\t' || c = '\n' || c = '\r' || c = '\x0b' || c = '\x0c'

/-- One character of the output of `re.escape`. -/
def reEscapeChar (c : Char) : List Char :=
  if isReSpecial c then ['\\', c] else [c]

/-- Model of `re.escape(s)` (line 142): every special character gains a backslash. -/
def re_escape (s : List Char) : List Char := (s.map reEscapeChar).flatten

/-- Model of `re.search(re.escape(needle), hay, flags=re.IGNORECASE)` as a Boolean
(lines 147-148 and 182-186): searching for an escaped pattern is exactly a
literal substring test on the original needle, case-insensitive under the
IGNORECASE flag. -/
def searchCI (needle hay : List Char) : Bool :=
  decide (needle.map Char.toLower <:+: hay.map Char.toLower)

/-- The fields of a `discord.User` / `discord.Member` read by the bot. -/
structure User where
  id : String
  name : String
  discriminator : String
  display_name : String
  avatar_url : String
  deriving DecidableEq, Repr

/-- The full name `user_obj.name + '#' + user_obj.discriminator` (line 144). -/
def full_name (u : User) : String := u.name ++ "#" ++ u.discriminator

/-- Model of `ParrotBot.is_same_user` (lines 121-151). The author hint is escaped
first (line 142); the escaped string is then used both for the plain
`str.find(...) == 0` test on the id (line 146) and as the pattern of the two
IGNORECASE regex searches (lines 147-148). The id test therefore compares
the id against the ESCAPED hint, while the regex searches are equivalent to
case-insensitive literal substring tests on the original hint. -/
def is_same_user (u : User) (user_str : String) : Bool :=
  (re_escape user_str.toList).isPrefixOf u.id.toList
    || searchCI user_str.toList (full_name u).toList
    || searchCI user_str.toList u.display_name.toList

/-- The fields of a `discord.Message` read by the bot. The timestamp is an
abstract totally ordered creation time. -/
structure Message where
  content : String
  author : User
  timestamp : Int
  edited_timestamp : Option Int
  deriving DecidableEq, Repr

/-- The body of the `async for` loop of `search_message_by_quote`
(lines 180-187): a candidate message qualifies when the author group is
empty or `is_same_user` accepts its author, and its content contains the
content group as a case-insensitive literal substring (the fragment is
escaped before the search, line 183, so it is matched literally). -/
def candidate_ok (pat : QuotePattern) (m : Message) : Bool :=
  (pat.author == "" || is_same_user m.author pat.author)
    && searchCI pat.content.toList m.content.toList

/-- The value of `self.log_fetch_limit` (line 55): the `limit` passed to `logs_from`. -/
def log_fetch_limit : Nat := 100

/-- Model of `ParrotBot.search_message_by_quote` (lines 153-189), given the parsed
groups of the trigger body (the source recomputes the `fullmatch` at
line 173; `on_message` guarantees it succeeds) and the channel history the
external provider `logs_from(channel, limit, before=quote)` would yield:
a most-recent-first list of messages strictly older than the trigger, of
which at most `log_fetch_limit` are iterated. Returns the first qualifying
message, or `none` when the window is exhausted (line 189). -/
def search_message_by_quote (pat : QuotePattern) (history : List Message) :
    Option Message :=
  (history.take log_fetch_limit).find? (candidate_ok pat)

/-- The fields of the `discord.Embed` built by `create_quote_embed`. -/
structure Embed where
  description : String
  author_name : String
  author_icon_url : String
  footer_text : String
  footer_icon_url : String
  timestamp : Int
  deriving DecidableEq, Repr

/-- Model of `ParrotBot.create_quote_embed` (lines 191-237). -/
def create_quote_embed (quoting_user : User) (quote : Message) : Embed :=
  { description := quote.content
    author_name := quote.author.display_name
    author_icon_url := quote.author.avatar_url
    footer_text := "Quoted by " ++ quoting_user.display_name ++ "."
      ++ (if quote.edited_timestamp.isSome then " Edited." else "")
    footer_icon_url := quoting_user.avatar_url
    timestamp := quote.timestamp }

/-- An outbound side-effecting call issued by the responder: a
`send_message` (line 269) or a `delete_message` (line 272). The trace of an
invocation lists the calls in the order they are issued. -/
inductive Call where
  | send : Embed → Call
  | delete : Message → Call
  deriving DecidableEq, Repr

/-- The outcome the external provider gives the `delete_message` call:
success, `discord.Forbidden` (permission denied), or any other failure. -/
inductive DeleteResult where
  | ok
  | forbidden
  | httpError
  deriving DecidableEq, Repr

/-- An exception propagating out of `quote_message` to the event loop. -/
inductive BotError where
  | otherError
  deriving DecidableEq, Repr

/-- Model of `ParrotBot.quote_message` (lines 239-274), reified over the external
capabilities: `history` is the provider's answer to `logs_from`, `pat` the
parsed groups of the trigger body, `bot_may_send` the value of
`quote.channel.permissions_for(bot_member).send_messages` (line 261), and
`deleteRes` the outcome of the `delete_message` call should it be issued.
Returns the ordered trace of outbound calls together with the exception, if
any, escaping the invocation: when a match is found and sending is allowed,
the embed is sent, then the delete is attempted; `discord.Forbidden` from
the delete is swallowed by the `try`/`except` (lines 271-274), any other
failure escapes after the send has already happened. -/
def quote_message (quote : Message) (history : List Message)
    (pat : QuotePattern) (bot_may_send : Bool) (deleteRes : DeleteResult) :
    List Call × Option BotError :=
  match search_message_by_quote pat history with
  | some quoted =>
    if bot_may_send then
      match deleteRes with
      | DeleteResult.ok =>
        ([Call.send (create_quote_embed quote.author quoted),
          Call.delete quote], none)
      | DeleteResult.forbidden =>
        ([Call.send (create_quote_embed quote.author quoted),
          Call.delete quote], none)
      | DeleteResult.httpError =>
        ([Call.send (create_quote_embed quote.author quoted),
          Call.delete quote], some BotError.otherError)
    else ([], none)
  | none => ([], none)

/-- Model of `ParrotBot.on_message` (lines 318-321): invoke the responder exactly
when `re_quote.fullmatch` succeeds on the body. The source re-parses the
body inside `search_message_by_quote`; the parse is pure, so passing the
groups down is observationally identical. -/
def on_message (msg : Message) (history : List Message) (bot_may_send : Bool)
    (deleteRes : DeleteResult) : List Call × Option BotError :=
  match re_quote_fullmatch msg.content with
  | some pat => quote_message msg history pat bot_may_send deleteRes
  | none => ([], none)

/-! ## Helper lemmas about the quote grammar -/

theorem tryContent_sound (t : List Char) :
    ∀ j cnt, tryContent t j = some cnt → cnt ≠ [] ∧ '\n' ∉ cnt := by
  intro j
  induction j with
  | zero =>
    intro cnt h
    simp only [tryContent] at h
    by_cases hc : t ≠ [] ∧ '\n' ∉ t
    · rw [if_pos hc] at h
      cases h
      exact hc
    · rw [if_neg hc] at h
      cases h
  | succ j ih =>
    intro cnt h
    simp only [tryContent] at h
    by_cases hc : t.drop (j + 1) ≠ [] ∧ '\n' ∉ t.drop (j + 1)
    · rw [if_pos hc] at h
      cases h
      exact hc
    · rw [if_neg hc] at h
      exact ih cnt h

theorem tryContent_total (t : List Char) (ht : t ≠ []) (hn : '\n' ∉ t) :
    ∀ j, ∃ cnt, tryContent t j = some cnt := by
  intro j
  induction j with
  | zero =>
    refine ⟨t, ?_⟩
    simp only [tryContent]
    rw [if_pos ⟨ht, hn⟩]
  | succ j ih =>
    by_cases hc : t.drop (j + 1) ≠ [] ∧ '\n' ∉ t.drop (j + 1)
    · refine ⟨t.drop (j + 1), ?_⟩
      simp only [tryContent]
      rw [if_pos hc]
    · obtain ⟨cnt, hcnt⟩ := ih
      refine ⟨cnt, ?_⟩
      simp only [tryContent]
      rw [if_neg hc]
      exact hcnt

theorem matchFromSep_cons_space (ch : Char) (r : List Char)
    (h : isPySpace ch = true) : matchFromSep (ch :: r) = matchFromSep r := by
  simp only [matchFromSep, List.dropWhile_cons, h, if_true]

theorem matchFromSep_sound (r cnt : List Char)
    (h : matchFromSep r = some cnt) : cnt ≠ [] ∧ '\n' ∉ cnt := by
  rcases hd : r.dropWhile isPySpace with _ | ⟨x, t⟩ <;>
    simp only [matchFromSep, hd] at h
  · cases h
  · by_cases hx : x = '>'
    · rw [if_pos hx] at h
      exact tryContent_sound t _ cnt h
    · rw [if_neg hx] at h
      cases h

theorem matchFromSep_none_of_no_sep : ∀ (r : List Char), '>' ∉ r →
    matchFromSep r = none := by
  intro r
  induction r with
  | nil => intro _; rfl
  | cons ch r' ih =>
    intro h
    simp only [List.mem_cons, not_or] at h
    obtain ⟨h1, h2⟩ := h
    by_cases hs : isPySpace ch = true
    · rw [matchFromSep_cons_space ch r' hs]
      exact ih h2
    · simp only [matchFromSep, List.dropWhile_cons, hs, if_false]
      show (if ch = '>' then tryContent r' (r'.takeWhile isPySpace).length
        else none) = none
      rw [if_neg fun e => h1 e.symm]

theorem reQuoteAux_none_of_no_sep : ∀ (rest : List Char), ∀ acc, '>' ∉ rest →
    reQuoteAux acc rest = none := by
  intro rest
  induction rest with
  | nil =>
    intro acc _
    simp [reQuoteAux, matchFromSep]
  | cons ch rest' ih =>
    intro acc h
    have h2 : '>' ∉ rest' := fun hm => h (List.mem_cons_of_mem _ hm)
    have hms := matchFromSep_none_of_no_sep (ch :: rest') h
    rw [reQuoteAux, hms]
    by_cases hn : ch = '\n'
    · rw [if_pos hn]
    · rw [if_neg hn]
      exact ih (ch :: acc) h2

theorem reQuoteAux_inv : ∀ (rest : List Char), ∀ (acc author content : List Char),
    reQuoteAux acc rest = some (author, content) →
    content ≠ [] ∧ '\n' ∉ content ∧
    ∃ ds, author = acc.reverse ++ ds ∧ '\n' ∉ ds ∧
      (ds = [] → matchFromSep rest = some content) ∧
      ∀ c ∈ ds.getLast?, isPySpace c = false := by
  intro rest
  induction rest with
  | nil =>
    intro acc author content h
    simp [reQuoteAux, matchFromSep] at h
  | cons ch rest' ih =>
    intro acc author content h
    rcases hms : matchFromSep (ch :: rest') with _ | cnt
    · rw [reQuoteAux, hms] at h
      by_cases hn : ch = '\n'
      · rw [if_pos hn] at h
        cases h
      · rw [if_neg hn] at h
        obtain ⟨hc1, hc2, ds', hds', hnds', himm, hlast⟩ :=
          ih (ch :: acc) author content h
        refine ⟨hc1, hc2, ch :: ds', ?_, ?_, ?_, ?_⟩
        · rw [hds']
          simp
        · intro hmem
          rcases List.mem_cons.mp hmem with e | e
          · exact hn e.symm
          · exact hnds' e
        · intro he
          cases he
        · intro c hc
          cases ds' with
          | nil =>
            simp only [List.getLast?_singleton, Option.mem_def,
              Option.some.injEq] at hc
            subst hc
            by_cases hws : isPySpace ch = true
            · exfalso
              rw [matchFromSep_cons_space ch rest' hws, himm rfl] at hms
              cases hms
            · simpa using hws
          | cons d ds'' =>
            rw [List.getLast?_cons_cons] at hc
            exact hlast c hc
    · rw [reQuoteAux, hms] at h
      simp only [Option.some.injEq, Prod.mk.injEq] at h
      obtain ⟨ha, hcnt⟩ := h
      subst ha
      subst hcnt
      obtain ⟨h1, h2⟩ := matchFromSep_sound _ _ hms
      exact ⟨h1, h2, [], by simp, by simp, fun _ => rfl, by simp⟩

theorem isPySpace_space : isPySpace ' ' = true := rfl

theorem isPySpace_gt : isPySpace '>' = false := rfl

theorem takeWhile_space_cons (c : List Char)
    (hch : ∀ x ∈ c.head?, isPySpace x = false) :
    (' ' :: c).takeWhile isPySpace = [' '] := by
  rw [List.takeWhile_cons, isPySpace_space, if_pos rfl]
  cases c with
  | nil => rfl
  | cons c0 cs =>
    have h0 : isPySpace c0 = false := hch c0 (by simp)
    simp [List.takeWhile_cons, h0]

theorem matchFromSep_sep (c : List Char) (hc : c ≠ [])
    (hch : ∀ x ∈ c.head?, isPySpace x = false) (hcn : '\n' ∉ c) :
    matchFromSep (' ' :: '>' :: ' ' :: c) = some c := by
  rw [matchFromSep_cons_space ' ' _ isPySpace_space]
  simp only [matchFromSep, List.dropWhile_cons, isPySpace_gt,
    Bool.false_eq_true, if_false]
  show (if '>' = '>' then
      tryContent (' ' :: c) ((' ' :: c).takeWhile isPySpace).length
    else none) = some c
  rw [if_pos rfl, takeWhile_space_cons c hch]
  show tryContent (' ' :: c) 1 = some c
  simp only [tryContent, List.drop_succ_cons, List.drop_zero]
  rw [if_pos ⟨hc, hcn⟩]

theorem matchFromSep_append_none (c : List Char) :
    ∀ (a : List Char), a ≠ [] → '>' ∉ a →
      (∀ x ∈ a.getLast?, isPySpace x = false) →
      matchFromSep (a ++ c) = none := by
  intro a
  induction a with
  | nil => intro h _ _; cases h rfl
  | cons ch a' ih =>
    intro _ hgt hlast
    have hch : ¬ ch = '>' := fun e => hgt (by rw [e]; exact List.mem_cons_self _ _)
    by_cases hws : isPySpace ch = true
    · cases a' with
      | nil =>
        exfalso
        have h1 := hlast ch (by simp)
        rw [hws] at h1
        cases h1
      | cons d a'' =>
        rw [List.cons_append, matchFromSep_cons_space ch _ hws]
        refine ih (by simp) (fun hm => hgt (List.mem_cons_of_mem _ hm)) ?_
        intro x hx
        exact hlast x (by rw [List.getLast?_cons_cons]; exact hx)
    · rw [List.cons_append]
      simp only [matchFromSep, List.dropWhile_cons, hws, if_false]
      show (if ch = '>' then
          tryContent (a' ++ c) ((a' ++ c).takeWhile isPySpace).length
        else none) = none
      rw [if_neg hch]

theorem reQuoteAux_concat (c : List Char) (hc : c ≠ [])
    (hch : ∀ x ∈ c.head?, isPySpace x = false) (hcn : '\n' ∉ c) :
    ∀ (a : List Char), ∀ (acc : List Char), '>' ∉ a → '\n' ∉ a →
      (∀ x ∈ a.getLast?, isPySpace x = false) →
      reQuoteAux acc (a ++ (' ' :: '>' :: ' ' :: c)) =
        some (acc.reverse ++ a, c) := by
  intro a
  induction a with
  | nil =>
    intro acc _ _ _
    rw [List.nil_append, reQuoteAux, matchFromSep_sep c hc hch hcn]
    simp
  | cons ch a' ih =>
    intro acc hgt hnl hlast
    have hne : matchFromSep (ch :: (a' ++ (' ' :: '>' :: ' ' :: c))) = none := by
      have := matchFromSep_append_none (' ' :: '>' :: ' ' :: c) (ch :: a')
        (by simp) hgt hlast
      rwa [List.cons_append] at this
    have hchn : ¬ ch = '\n' :=
      fun e => hnl (by rw [e]; exact List.mem_cons_self _ _)
    rw [List.cons_append, reQuoteAux, hne, if_neg hchn]
    rw [ih (ch :: acc) (fun hm => hgt (List.mem_cons_of_mem _ hm))
      (fun hm => hnl (List.mem_cons_of_mem _ hm)) ?_]
    · simp
    · intro x hx
      cases a' with
      | nil => cases hx
      | cons d a'' => exact hlast x (by rw [List.getLast?_cons_cons]; exact hx)

/-! ## Helper lemma about the history scan -/

theorem find_sorted_max (p : Message → Bool) :
    ∀ (l : List Message), l.Pairwise (fun a b => b.timestamp < a.timestamp) →
      ∀ m, l.find? p = some m →
        p m = true ∧ m ∈ l ∧
        ∀ m' ∈ l, p m' = true → m'.timestamp ≤ m.timestamp := by
  intro l
  induction l with
  | nil =>
    intro _ m h
    cases h
  | cons x xs ih =>
    intro hs m hfind
    rw [List.pairwise_cons] at hs
    by_cases hx : p x = true
    · rw [List.find?_cons_of_pos _ hx] at hfind
      cases hfind
      refine ⟨hx, List.mem_cons_self _ _, ?_⟩
      intro m' hm' _
      rcases List.mem_cons.mp hm' with e | e
      · rw [e]
      · exact le_of_lt (hs.1 m' e)
    · rw [List.find?_cons_of_neg _ hx] at hfind
      obtain ⟨hpm, hmem, hmax⟩ := ih hs.2 m hfind
      refine ⟨hpm, List.mem_cons_of_mem _ hmem, ?_⟩
      intro m' hm' hpm'
      rcases List.mem_cons.mp hm' with e | e
      · rw [e] at hpm'
        exact absurd hpm' hx
      · exact hmax m' e hpm'

/-- Recognises the `send_message` calls of a trace. -/
def isSendCall : Call → Bool
  | Call.send _ => true
  | Call.delete _ => false

/-- Recognises the `delete_message` calls of a trace. -/
def isDeleteCall : Call → Bool
  | Call.send _ => false
  | Call.delete _ => true

/-! ## Concrete sample data used by the witnesses -/

/-- A sample member. -/
def userW1 : User := ⟨"111", "Alice", "0001", "Ally", "a1"⟩

/-- A sample history message containing "hello world". -/
def msgW1 : Message := ⟨"hello world", userW1, 5, none⟩

/-- A sample history message containing "hello". -/
def msgW2 : Message := ⟨"hello", userW1, 3, none⟩

/-- A sample trigger message. -/
def trigW : Message := ⟨"> zzz", userW1, 10, none⟩

/-- A sample message that satisfies the pattern with fragment "needle". -/
def msgGoodW : Message := ⟨"needle here", userW1, -200, none⟩

/-- A sample message that fails the pattern with fragment "needle". -/
def msgBadW : Message := ⟨"nothing", userW1, 0, none⟩

/-! ## Claim theorems -/

/-- C1: for every channel history (finite, most-recent-first, all strictly
older than the trigger, no longer than the fetch window) and every parsed
QuotePattern, the history scanner returns the first message in that order
passing both checks: any returned message qualifies, belongs to the
history, is strictly older than the trigger, and has the greatest timestamp
among all qualifying messages — never an older qualifying one; and it
returns `none` exactly when no message of the history qualifies. -/
theorem search_returns_most_recent_match (trigger : Message)
    (pat : QuotePattern) (history : List Message)
    (hlen : history.length ≤ log_fetch_limit)
    (hsorted : history.Pairwise (fun a b => b.timestamp < a.timestamp))
    (holder : ∀ m ∈ history, m.timestamp < trigger.timestamp) :
    (∀ m, search_message_by_quote pat history = some m →
        candidate_ok pat m = true ∧ m ∈ history ∧
        m.timestamp < trigger.timestamp ∧
        ∀ m' ∈ history, candidate_ok pat m' = true →
          m'.timestamp ≤ m.timestamp) ∧
    (search_message_by_quote pat history = none ↔
        ∀ m ∈ history, candidate_ok pat m = false) := by
  have htake : history.take log_fetch_limit = history :=
    List.take_of_length_le hlen
  constructor
  · intro m hfind
    simp only [search_message_by_quote, htake] at hfind
    obtain ⟨hp, hmem, hmax⟩ :=
      find_sorted_max (candidate_ok pat) history hsorted m hfind
    exact ⟨hp, hmem, holder m hmem, hmax⟩
  · simp only [search_message_by_quote, htake]
    rw [List.find?_eq_none]
    constructor
    · intro h m hm
      have := h m hm
      simpa using this
    · intro h m hm
      rw [h m hm]
      simp

/-- Witness for C1: a concrete two-message sorted history in which no
message matches the fragment "zzz", so the scanner reports not-found. -/
theorem search_returns_most_recent_match_witness :
    search_message_by_quote ⟨"", "zzz"⟩ [msgW1, msgW2] = none :=
  (search_returns_most_recent_match trigW ⟨"", "zzz"⟩ [msgW1, msgW2]
    (by decide) (by decide) (by decide)).2.mpr (by decide)

/-- C6: the scan window is a hard cutoff of exactly `log_fetch_limit` = 100
messages: whenever every message among the first 100 of the history fails
the candidate check, the scanner returns `none`, whatever lies deeper. -/
theorem window_hard_cutoff (pat : QuotePattern) (history : List Message)
    (h : ∀ m ∈ history.take log_fetch_limit, candidate_ok pat m = false) :
    search_message_by_quote pat history = none ∧ log_fetch_limit = 100 := by
  refine ⟨?_, rfl⟩
  simp only [search_message_by_quote]
  rw [List.find?_eq_none]
  intro m hm
  rw [h m hm]
  simp

/-- Witness for C6: a history whose only satisfying message sits at
position 101 (just past the window) yields not-found, although that message
does satisfy the candidate check. -/
theorem window_hard_cutoff_witness :
    search_message_by_quote ⟨"", "needle"⟩
      (List.replicate 100 msgBadW ++ [msgGoodW]) = none ∧
    candidate_ok ⟨"", "needle"⟩ msgGoodW = true :=
  ⟨(window_hard_cutoff ⟨"", "needle"⟩
      (List.replicate 100 msgBadW ++ [msgGoodW]) (by
        intro m hm
        have ht : (List.replicate 100 msgBadW ++ [msgGoodW]).take
            log_fetch_limit = List.replicate 100 msgBadW := by
          simp only [log_fetch_limit]
          have h2 := List.take_left (List.replicate 100 msgBadW) [msgGoodW]
          rwa [List.length_replicate] at h2
        rw [ht] at hm
        rw [List.eq_of_mem_replicate hm]
        decide)).1,
   by decide⟩

/-- C2: when a match is found and send permission holds, the citation send
is issued before the delete of the trigger; a Forbidden failure of the
delete is swallowed (no error escapes and the send stays in the trace),
while any other delete failure propagates with the citation already sent,
never retracted or re-sent. -/
theorem quote_message_delete_failure_policy (quote qm : Message)
    (history : List Message) (pat : QuotePattern) (dr : DeleteResult)
    (hfound : search_message_by_quote pat history = some qm) :
    (quote_message quote history pat true dr).1 =
      [Call.send (create_quote_embed quote.author qm), Call.delete quote] ∧
    (dr = DeleteResult.forbidden →
      (quote_message quote history pat true dr).2 = none) ∧
    (dr = DeleteResult.httpError →
      (quote_message quote history pat true dr).2 =
        some BotError.otherError) := by
  simp only [quote_message, hfound]
  cases dr <;> simp

/-- Witness for C2: a concrete trigger and one-message history with a match;
the Forbidden delete outcome leaves the send-then-delete trace and no
error. -/
theorem quote_message_delete_failure_policy_witness :
    (quote_message trigW [msgW2] ⟨"", "hello"⟩ true
        DeleteResult.forbidden).1 =
      [Call.send (create_quote_embed trigW.author msgW2),
        Call.delete trigW] ∧
    (DeleteResult.forbidden = DeleteResult.forbidden →
      (quote_message trigW [msgW2] ⟨"", "hello"⟩ true
        DeleteResult.forbidden).2 = none) ∧
    (DeleteResult.forbidden = DeleteResult.httpError →
      (quote_message trigW [msgW2] ⟨"", "hello"⟩ true
        DeleteResult.forbidden).2 = some BotError.otherError) :=
  quote_message_delete_failure_policy trigW msgW2 [msgW2] ⟨"", "hello"⟩
    DeleteResult.forbidden (by decide)

/-- C7: when the scanner finds a match but the bot lacks send permission,
the responder issues no send and no delete call and raises no error; and
for every permission value and delete outcome, an invocation issues at most
one send and at most one delete call. -/
theorem no_send_permission_frame (quote qm : Message) (history : List Message)
    (pat : QuotePattern) (dr : DeleteResult)
    (hfound : search_message_by_quote pat history = some qm) :
    quote_message quote history pat false dr = ([], none) ∧
    ∀ (bms : Bool) (dr' : DeleteResult),
      (quote_message quote history pat bms dr').1.countP isSendCall ≤ 1 ∧
      (quote_message quote history pat bms dr').1.countP isDeleteCall ≤ 1 := by
  constructor
  · simp [quote_message, hfound]
  · intro bms dr'
    simp only [quote_message, hfound]
    cases bms <;> cases dr' <;>
      simp [List.countP_cons, isSendCall, isDeleteCall]

/-- Witness for C7: with the concrete matching history, denying send
permission produces the empty trace and no error, and the success path
issues at most one send call. -/
theorem no_send_permission_frame_witness :
    quote_message trigW [msgW2] ⟨"", "hello"⟩ false DeleteResult.ok =
      ([], none) ∧
    (quote_message trigW [msgW2] ⟨"", "hello"⟩ true
        DeleteResult.ok).1.countP isSendCall ≤ 1 :=
  ⟨(no_send_permission_frame trigW msgW2 [msgW2] ⟨"", "hello"⟩
      DeleteResult.ok (by decide)).1,
   ((no_send_permission_frame trigW msgW2 [msgW2] ⟨"", "hello"⟩
      DeleteResult.ok (by decide)).2 true DeleteResult.ok).1⟩

/-- C3 counterexample: for the non-empty trimmed author string "x>y" and
the non-empty content string "c", parsing "x>y > c" does NOT yield author
"x>y" with content "c": the lazy author group commits to the first viable
separator, producing author "x" and content "y > c". -/
theorem parse_concat_counterexample :
    re_quote_fullmatch ("x>y" ++ " > " ++ "c") = some ⟨"x", "y > c"⟩ ∧
    re_quote_fullmatch ("x>y" ++ " > " ++ "c") ≠ some ⟨"x>y", "c"⟩ := by
  decide

/-- C3 (amended): for every non-empty trimmed author string a containing no
separator character and no newline, and every non-empty content string c
that does not begin with whitespace and contains no newline, parsing
a ++ " > " ++ c yields author a and content c. -/
theorem parse_concat_amended (a c : List Char)
    (_ha : a ≠ [])
    (_hhead : ∀ x ∈ a.head?, isPySpace x = false)
    (hlast : ∀ x ∈ a.getLast?, isPySpace x = false)
    (hgt : '>' ∉ a) (han : '\n' ∉ a)
    (hc : c ≠ []) (hch : ∀ x ∈ c.head?, isPySpace x = false)
    (hcn : '\n' ∉ c) :
    re_quote_fullmatch (String.mk a ++ " > " ++ String.mk c) =
      some ⟨String.mk a, String.mk c⟩ := by
  have hl : (String.mk a ++ " > " ++ String.mk c).toList =
      a ++ (' ' :: '>' :: ' ' :: c) := by
    show (String.mk a ++ " > " ++ String.mk c).data = _
    rw [String.data_append, String.data_append]
    show (a ++ [' ', '>', ' ']) ++ c = _
    simp
  simp only [re_quote_fullmatch, hl]
  rw [reQuoteAux_concat c hc hch hcn a [] hgt han hlast]
  simp

/-- Witness for C3 (amended): the end-to-end example author "Bob" with
content "secret plan". -/
theorem parse_concat_amended_witness :
    re_quote_fullmatch (String.mk "Bob".toList ++ " > " ++
      String.mk "secret plan".toList) =
      some ⟨String.mk "Bob".toList, String.mk "secret plan".toList⟩ :=
  parse_concat_amended "Bob".toList "secret plan".toList (by decide)
    (by decide) (by decide) (by decide) (by decide) (by decide) (by decide)
    (by decide)

/-- C5 counterexample: the body " a >  " parses, yet its content fragment
" " consists purely of whitespace (no non-whitespace character) and its
author hint " a" retains leading whitespace, so it is not trimmed. -/
theorem parse_invariant_counterexample :
    re_quote_fullmatch " a >  " = some ⟨" a", " "⟩ ∧
    (∀ x ∈ (" " : String).toList, isPySpace x = true) ∧
    (" a" : String).toList.head? = some ' ' ∧ isPySpace ' ' = true := by
  decide

/-- C5 (amended): whenever parsing succeeds, the content fragment is
non-empty (though it may consist entirely of whitespace), and the author
hint, when present (non-empty), contains no newline and carries no trailing
whitespace — leading whitespace may remain. -/
theorem parse_invariant_amended (body : String) (pat : QuotePattern)
    (h : re_quote_fullmatch body = some pat) :
    pat.content ≠ "" ∧
    (pat.author ≠ "" →
      '\n' ∉ pat.author.toList ∧
      ∀ x ∈ pat.author.toList.getLast?, isPySpace x = false) := by
  simp only [re_quote_fullmatch] at h
  rcases hq : reQuoteAux [] body.toList with _ | p
  · rw [hq] at h
    cases h
  · rw [hq] at h
    obtain ⟨a, cnt⟩ := p
    simp only [Option.map_some', Option.some.injEq] at h
    subst h
    obtain ⟨h1, _, ds, hds, hnds, _, hlast⟩ :=
      reQuoteAux_inv body.toList [] a cnt hq
    simp only [List.reverse_nil, List.nil_append] at hds
    subst hds
    refine ⟨?_, fun _ => ⟨hnds, hlast⟩⟩
    intro he
    apply h1
    have he' : String.mk cnt = "" := he
    have h2 : (String.mk cnt).data = ("" : String).data := by rw [he']
    simpa using h2

/-- Witness for C5 (amended): instantiated at the parse of "a > c". -/
theorem parse_invariant_amended_witness :
    ("c" : String) ≠ "" ∧
    (("a" : String) ≠ "" →
      '\n' ∉ ("a" : String).toList ∧
      ∀ x ∈ ("a" : String).toList.getLast?, isPySpace x = false) :=
  parse_invariant_amended "a > c" ⟨"a", "c"⟩ (by decide)

/-- C8: a body without the separator character is not a quote: parsing
yields nothing, and the message-event handler issues no call (no scan
result is acted on, no send, no delete) and no error for such a body. -/
theorem no_separator_no_action (body : String) (h : '>' ∉ body.toList) :
    re_quote_fullmatch body = none ∧
    ∀ (msg : Message) (history : List Message) (bms : Bool)
      (dr : DeleteResult), msg.content = body →
        on_message msg history bms dr = ([], none) := by
  have hp : re_quote_fullmatch body = none := by
    simp only [re_quote_fullmatch]
    rw [reQuoteAux_none_of_no_sep body.toList [] h]
    rfl
  refine ⟨hp, ?_⟩
  intro msg history bms dr hcont
  simp only [on_message, hcont, hp]

/-- Witness for C8: the end-to-end example body "going fishing". -/
theorem no_separator_no_action_witness :
    re_quote_fullmatch "going fishing" = none ∧
    on_message ⟨"going fishing", userW1, 7, none⟩ [msgW1] true
      DeleteResult.ok = ([], none) :=
  ⟨(no_separator_no_action "going fishing" (by decide)).1,
   (no_separator_no_action "going fishing" (by decide)).2
     ⟨"going fishing", userW1, 7, none⟩ [msgW1] true DeleteResult.ok rfl⟩

/-- C9 counterexample: the body "a\n> c" contains a newline, yet the
full-body parse succeeds — the newline is absorbed by the `\s*` around the
separator — so a multi-line body CAN be recognized as a quote trigger. -/
theorem newline_parse_counterexample :
    '\n' ∈ ("a\n> c" : String).toList ∧
    re_quote_fullmatch "a\n> c" = some ⟨"a", "c"⟩ := by
  decide

/-- C9 (amended): the grammar's wildcards do not cross line boundaries:
whenever the full-body parse succeeds, neither the author hint nor the
content fragment contains a newline; a newline in the body can only be
matched by the whitespace surrounding the separator. -/
theorem newline_parse_amended (body : String) (pat : QuotePattern)
    (h : re_quote_fullmatch body = some pat) :
    '\n' ∉ pat.author.toList ∧ '\n' ∉ pat.content.toList := by
  simp only [re_quote_fullmatch] at h
  rcases hq : reQuoteAux [] body.toList with _ | p
  · rw [hq] at h
    cases h
  · rw [hq] at h
    obtain ⟨a, cnt⟩ := p
    simp only [Option.map_some', Option.some.injEq] at h
    subst h
    obtain ⟨_, h2, ds, hds, hnds, _, _⟩ :=
      reQuoteAux_inv body.toList [] a cnt hq
    simp only [List.reverse_nil, List.nil_append] at hds
    subst hds
    exact ⟨hnds, h2⟩

/-- Witness for C9 (amended): instantiated at the parse of "a\n> c". -/
theorem newline_parse_amended_witness :
    '\n' ∉ ("a" : String).toList ∧ '\n' ∉ ("c" : String).toList :=
  newline_parse_amended "a\n> c" ⟨"a", "c"⟩ (by decide)

/-- C10 counterexample: the body "> a\nb" has the form "> c" with the
non-empty content c = "a\nb", yet the full-body parse FAILS — with the
separator leading, the newline inside c can be matched by no wildcard of
the grammar — so such a body is not recognized at all, contradicting the
claim that every body of this form parses with an empty author hint. -/
theorem leading_separator_counterexample :
    ("a\nb" : String).toList ≠ [] ∧
    re_quote_fullmatch (String.mk ('>' :: ' ' :: ("a\nb" : String).toList)) =
      none := by
  decide

/-- C10 (amended): a body beginning with the separator (form "> c" with
non-empty c that contains no newline) parses with an empty author hint, and
the scanner given an empty author hint skips the author filter entirely:
over any history it reduces to the pure case-insensitive content search, so
a candidate from any author whose body contains the fragment can be
returned. -/
theorem leading_separator_empty_author (c : List Char) (_hc : c ≠ [])
    (hcn : '\n' ∉ c) :
    ∃ pat : QuotePattern,
      re_quote_fullmatch (String.mk ('>' :: ' ' :: c)) = some pat ∧
      pat.author = "" ∧
      ∀ history : List Message,
        search_message_by_quote pat history =
          (history.take log_fetch_limit).find?
            (fun m => searchCI pat.content.toList m.content.toList) := by
  have hms : ∃ cnt, matchFromSep ('>' :: ' ' :: c) = some cnt := by
    simp only [matchFromSep, List.dropWhile_cons, isPySpace_gt,
      Bool.false_eq_true, if_false]
    show ∃ cnt, (if '>' = '>' then
        tryContent (' ' :: c) ((' ' :: c).takeWhile isPySpace).length
      else none) = some cnt
    rw [if_pos rfl]
    exact tryContent_total (' ' :: c) (by simp) (by
      intro hmem
      rcases List.mem_cons.mp hmem with e | e
      · exact absurd e (by decide)
      · exact hcn e) _
  obtain ⟨cnt, hcnt⟩ := hms
  refine ⟨⟨"", String.mk cnt⟩, ?_, rfl, ?_⟩
  · simp only [re_quote_fullmatch]
    rw [show (String.mk ('>' :: ' ' :: c)).toList = '>' :: ' ' :: c from rfl]
    rw [reQuoteAux, hcnt]
    rfl
  · intro history
    simp only [search_message_by_quote]
    congr 1

/-- Witness for C10: instantiated at the content "hi". -/
theorem leading_separator_empty_author_witness :
    ∃ pat : QuotePattern,
      re_quote_fullmatch (String.mk ('>' :: ' ' :: ['h', 'i'])) = some pat ∧
      pat.author = "" ∧
      ∀ history : List Message,
        search_message_by_quote pat history =
          (history.take log_fetch_limit).find?
            (fun m => searchCI pat.content.toList m.content.toList) :=
  leading_separator_empty_author ['h', 'i'] (by decide) (by decide)

/-- C4 (code bug): the matcher `is_same_user` escapes the author hint BEFORE the
plain-string prefix test on the id (line 142 precedes line 146), so for the
hint "a.b" and a member whose id is "a.b1" the matcher returns false even
though the id literally starts with the hint — contradicting the
function's own docstring ("the given string is (the beginning of) the
user's id"). The second conjunct shows the hint IS a literal prefix of the
id. -/
theorem is_same_user_escape_bug :
    is_same_user ⟨"a.b1", "n", "0001", "m", "av"⟩ "a.b" = false ∧
    ("a.b" : String).toList.isPrefixOf ("a.b1" : String).toList = true := by
  decide

end Parrot
